import Mathlib

/-!
Verification of the Logic-Filter prompt-enhancement pipeline.

This file gives a shallow embedding of the pipeline core of the repository:
the model/fallback configuration (`config.py`), the retry-with-fallback
engine and the pipeline orchestrator (`processing_functions.py`), and the
output sanitizer (`ui_components.py`), together with theorems about them.

Stage functions and the chat gateway are modelled as oracles (explicit
function parameters): the embedding records the exact sequence of oracle
invocations so that ordering and fail-fast properties are provable.
-/

set_option maxRecDepth 4096

namespace LogicFilter

/-- Default model table from `config.py` (`OLLAMA_MODELS`): pipeline-stage
purpose name to model identifier. The runtime allows an environment-variable
override; the embedding uses the in-repo default, which is the authority for
the claims. -/
def OLLAMA_MODELS : List (String × String) :=
  [("analysis", "llama3.2:latest"),
   ("generation", "olmo2:13b"),
   ("vetting", "deepseek-r1"),
   ("finalization", "deepseek-r1:14b"),
   ("enhancement", "phi4:latest"),
   ("comprehensive", "phi4:latest"),
   ("presenter", "deepseek-r1:14b")]

/-- First-match association-list lookup, the embedding of a Python `dict`
read (`d[k]` / `d.get(k)`); keys in the embedded dictionaries are unique. -/
def lookupA {α : Type} : List (String × α) → String → Option α
  | [], _ => none
  | (k, v) :: rest, key => if key = k then some v else lookupA rest key

/-- `OLLAMA_MODELS.values()` as used by the membership test in
`retry_with_fallback` (duplicates are irrelevant to membership). -/
def ollamaModelValues : List String := OLLAMA_MODELS.map Prod.snd

/-- `OLLAMA_MODELS[k]` for the stage keys (all present in the table). -/
def ollamaModel (k : String) : String := (lookupA OLLAMA_MODELS k).getD ("")

/-- Default fallback table from `config.py` (`FALLBACK_ORDER`): model
identifier to ordered list of substitute model identifiers. -/
def FALLBACK_ORDER : List (String × List String) :=
  [("llama3.2:latest", ["deepseek-r1", "phi4:latest"]),
   ("olmo2:13b", ["deepseek-r1:14b", "phi4:latest"]),
   ("deepseek-r1", ["phi4:latest", "llama3.2:latest"]),
   ("deepseek-r1:14b", ["phi4:latest", "deepseek-r1"]),
   ("phi4:latest", ["deepseek-r1:14b", "llama3.2:latest"])]

/-- `FALLBACK_ORDER.get(m, [])` from `retry_with_fallback`. -/
def fallbackOrderGet (m : String) : List String := (lookupA FALLBACK_ORDER m).getD []

/-- `PROGRESS_MESSAGES` from `config.py`. -/
def PROGRESS_MESSAGES : List (String × String) :=
  [("start", "Processing prompt...\n"),
   ("analyzing", "Phase 1/6: Analysis\n"),
   ("analysis_done", "Analysis complete.\n\n"),
   ("generating", "Phase 2/6: Generation\n"),
   ("generation_done", "Generation complete.\n\n"),
   ("vetting", "Phase 3/6: Vetting\n"),
   ("vetting_done", "Vetting complete.\n\n"),
   ("finalizing", "Phase 4/6: Finalization\n"),
   ("finalize_done", "Finalization complete.\n\n"),
   ("enhancing", "Phase 5/6: Enhancement\n"),
   ("enhance_done", "Enhancement complete.\n\n"),
   ("comprehensive", "Phase 6/6: Review\n"),
   ("complete", "Process complete.\n\n")]

/-- `PROGRESS_MESSAGES.get(phase, "")` from `_emit_progress`. -/
def progressMessagesGet (phase : String) : String :=
  (lookupA PROGRESS_MESSAGES phase).getD ("")

/-- Modelled from the spec: `config.DEFAULT_MODE` is imported by
`processing_functions.py` but is not defined in the `config.py` present in
the sources; the spec lists the mode set auto|standard|solve|boost, with
`auto` as the heuristic entry mode, so the default is modelled as `"auto"`.
No claim settled below depends on this value (the empty-prompt guard runs
before the mode is read, and all mode-specific claims pass an explicit
mode). -/
def DEFAULT_MODE : String := "auto"

/-! ## Retry-with-fallback engine (`processing_functions.retry_with_fallback`) -/

/-- One positional Python argument as seen by `retry_with_fallback`: either a
string or some non-string value (identified by an opaque tag, since the
engine only inspects strings). -/
inductive PyArg : Type
  | str (s : String)
  | other (tag : Nat)
deriving DecidableEq

/-- A Python exception value as it crosses the retry-engine boundary.
`raw` is an underlying stage error re-raised as-is (`raise last_error`);
`valueError` is `ValueError`; `generic` is a bare `Exception(msg)`.
The `stageError` constructor is modelled from the spec: the spec describes
an aggregated `PipelineStageError` carrying a stage name and cause, but no
such class exists anywhere in the sources and no code below constructs it;
it is present only so that its absence from actual results is statable. -/
inductive PyExc (ε : Type) : Type
  | raw (e : ε)
  | valueError (msg : String)
  | generic (msg : String)
  | stageError (stage : String) (cause : ε)
deriving DecidableEq

/-- Whether an exception is the spec's aggregated `PipelineStageError`. -/
def PyExc.isStageError {ε : Type} : PyExc ε → Bool
  | .stageError _ _ => true
  | _ => false

/-- Whether an `Except` value is a success. -/
def exIsOk {α β : Type} : Except α β → Bool
  | .ok _ => true
  | .error _ => false

instance {α β : Type} [DecidableEq α] [DecidableEq β] : DecidableEq (Except α β) := by
  intro a b
  cases a with
  | ok x =>
    cases b with
    | ok y =>
      rcases decEq x y with h | h
      · exact .isFalse (by intro hc; injection hc; exact h (by assumption))
      · exact .isTrue (by rw [h])
    | error y => exact .isFalse (by intro hc; cases hc)
  | error x =>
    cases b with
    | ok y => exact .isFalse (by intro hc; cases hc)
    | error y =>
      rcases decEq x y with h | h
      · exact .isFalse (by intro hc; injection hc; exact h (by assumption))
      · exact .isTrue (by rw [h])

/-- The model-argument discovery of `retry_with_fallback` when
`model_name is None`: the first positional argument that is a string and a
member of `OLLAMA_MODELS.values()`, together with its index. -/
def findModelAuto : List PyArg → Nat → Option (Nat × String)
  | [], _ => none
  | .str s :: rest, i =>
      if s ∈ ollamaModelValues then some (i, s) else findModelAuto rest (i + 1)
  | .other _ :: rest, i => findModelAuto rest (i + 1)

/-- The model-argument discovery of `retry_with_fallback` when `model_name`
is given: the index of the first positional argument that is that string. -/
def findModelNamed (m : String) : List PyArg → Nat → Option Nat
  | [], _ => none
  | .str s :: rest, i => if s = m then some i else findModelNamed m rest (i + 1)
  | .other _ :: rest, i => findModelNamed m rest (i + 1)

/-- Combined resolution of `(model_arg_index, model_name)` in
`retry_with_fallback`; `none` means the function raises
`ValueError("No model argument found")`. -/
def resolvedModel (modelName : Option String) (args : List PyArg) : Option (Nat × String) :=
  match modelName with
  | none => findModelAuto args 0
  | some m => (findModelNamed m args 0).map (fun i => (i, m))

/-- The full sequence of argument lists `retry_with_fallback` is prepared to
pass to the stage function: `max_retries` primary attempts with the original
arguments, then one attempt per fallback model with the model argument (at
index `i`) replaced. -/
def attemptList (args : List PyArg) (maxRetries : Nat) (i : Nat) (m : String) :
    List (List PyArg) :=
  List.replicate maxRetries args ++
    (fallbackOrderGet m).map (fun fb => args.set i (.str fb))

/-- Outcome of one `retry_with_fallback` invocation: the argument lists the
stage function was actually called with (in order), and the returned value or
raised exception. -/
structure RetryResult (ε ρ : Type) : Type where
  calls : List (List PyArg)
  outcome : Except (PyExc ε) ρ

/-- The attempt loops of `retry_with_fallback`: try each prepared argument
list in order (the stage function `func` also receives the zero-based index
of the call, so that stateful mocks — "fails k times then succeeds" — are
expressible); return at the first success; otherwise remember the last error
(`last_error`). -/
def runAttempts {ε ρ : Type} (func : Nat → List PyArg → Except ε ρ) :
    Nat → List (List PyArg) → Option ε → List (List PyArg) × Except (Option ε) ρ
  | _, [], lastError => ([], .error lastError)
  | idx, a :: rest, _ =>
      match func idx a with
      | .ok r => ([a], .ok r)
      | .error e =>
          let out := runAttempts func (idx + 1) rest (some e)
          (a :: out.1, out.2)

/-- `processing_functions.retry_with_fallback`. `maxRetries` defaults to 2 at
the source call sites that omit it; the embedding passes it explicitly. -/
def retry_with_fallback {ε ρ : Type} (func : Nat → List PyArg → Except ε ρ)
    (args : List PyArg) (maxRetries : Nat) (modelName : Option String) :
    RetryResult ε ρ :=
  match resolvedModel modelName args with
  | none => ⟨[], .error (.valueError ("No model argument found"))⟩
  | some (i, m) =>
      match runAttempts func 0 (attemptList args maxRetries i m) none with
      | (cs, .ok r) => ⟨cs, .ok r⟩
      | (cs, .error (some e)) => ⟨cs, .error (.raw e)⟩
      | (cs, .error none) => ⟨cs, .error (.generic ("All models failed"))⟩

/-! ### Behaviour of the attempt loops -/

theorem runAttempts_calls_take {ε ρ : Type} (func : Nat → List PyArg → Except ε ρ) :
    ∀ (pending : List (List PyArg)) (idx : Nat) (le : Option ε),
    ∃ t, t ≤ pending.length ∧ (runAttempts func idx pending le).1 = pending.take t := by
  intro pending
  induction pending with
  | nil => intro idx le; exact ⟨0, by simp, by simp [runAttempts]⟩
  | cons a rest ih =>
    intro idx le
    cases h : func idx a with
    | ok r => exact ⟨1, by simp, by simp [runAttempts, h]⟩
    | error e =>
      obtain ⟨t, ht, hc⟩ := ih (idx + 1) (some e)
      exact ⟨t + 1, by simpa using ht, by simp [runAttempts, h, hc]⟩

theorem runAttempts_ok {ε ρ : Type} (func : Nat → List PyArg → Except ε ρ) :
    ∀ (pending : List (List PyArg)) (idx : Nat) (le : Option ε) (r : ρ),
    (runAttempts func idx pending le).2 = .ok r →
    ∃ j, j < pending.length ∧
      (runAttempts func idx pending le).1 = pending.take (j + 1) ∧
      func (idx + j) (pending.getD j []) = .ok r ∧
      ∀ p, p < j → exIsOk (func (idx + p) (pending.getD p [])) = false := by
  intro pending
  induction pending with
  | nil => intro idx le r h; simp [runAttempts] at h
  | cons a rest ih =>
    intro idx le r h
    cases hf : func idx a with
    | ok r2 =>
      have hr : r2 = r := by
        simp [runAttempts, hf] at h; exact h
      refine ⟨0, by simp, by simp [runAttempts, hf], by simpa [hr] using hf, ?_⟩
      intro p hp; omega
    | error e =>
      have h2 : (runAttempts func (idx + 1) rest (some e)).2 = .ok r := by
        simpa [runAttempts, hf] using h
      obtain ⟨j, hj, hc, hok, hfail⟩ := ih (idx + 1) (some e) r h2
      refine ⟨j + 1, by simpa using hj, ?_, ?_, ?_⟩
      · simp [runAttempts, hf, hc]
      · have harith : idx + (j + 1) = idx + 1 + j := by omega
        rw [harith]; simpa using hok
      · intro p hp
        cases p with
        | zero => simp [exIsOk, hf]
        | succ q =>
          have harith : idx + (q + 1) = idx + 1 + q := by omega
          rw [harith]
          simpa using hfail q (by omega)

theorem runAttempts_allFail {ε ρ : Type} (func : Nat → List PyArg → Except ε ρ) :
    ∀ (pending : List (List PyArg)) (idx : Nat) (le : Option ε) (errF : Nat → ε),
    (∀ p, p < pending.length → func (idx + p) (pending.getD p []) = .error (errF p)) →
    (runAttempts func idx pending le).1 = pending ∧
    (runAttempts func idx pending le).2 =
      .error (if pending.length = 0 then le else some (errF (pending.length - 1))) := by
  intro pending
  induction pending with
  | nil => intro idx le errF h; simp [runAttempts]
  | cons a rest ih =>
    intro idx le errF h
    have h0 : func idx a = .error (errF 0) := by simpa using h 0 (by simp)
    have hrec := ih (idx + 1) (some (errF 0)) (fun p => errF (p + 1)) (fun p hp => by
      have harith : idx + 1 + p = idx + (p + 1) := by omega
      rw [harith]
      simpa using h (p + 1) (by simpa using Nat.succ_lt_succ hp))
    refine ⟨by simp [runAttempts, h0, hrec.1], ?_⟩
    rw [show (runAttempts func idx (a :: rest) le).2
          = (runAttempts func (idx + 1) rest (some (errF 0))).2 by
        simp [runAttempts, h0]]
    rw [hrec.2]
    rcases Nat.eq_zero_or_pos rest.length with h1 | h1
    · simp [h1]
    · have h2 : rest.length ≠ 0 := by omega
      simp only [h2, if_false, List.length_cons]
      have h3 : ¬ rest.length + 1 = 0 := by omega
      simp only [h3, if_false]
      have h4 : rest.length - 1 + 1 = rest.length + 1 - 1 := by omega
      rw [h4]

theorem runAttempts_allFail_not_ok {ε ρ : Type} (func : Nat → List PyArg → Except ε ρ) :
    ∀ (pending : List (List PyArg)) (idx : Nat) (le : Option ε),
    (∀ p, p < pending.length → exIsOk (func (idx + p) (pending.getD p [])) = false) →
    (runAttempts func idx pending le).1 = pending ∧
    exIsOk (runAttempts func idx pending le).2 = false := by
  intro pending
  induction pending with
  | nil => intro idx le h; simp [runAttempts, exIsOk]
  | cons a rest ih =>
    intro idx le h
    cases hf : func idx a with
    | ok r =>
      have := h 0 (by simp)
      simp [hf, exIsOk] at this
    | error e =>
      have hrec := ih (idx + 1) (some e) (fun p hp => by
        have harith : idx + 1 + p = idx + (p + 1) := by omega
        rw [harith]
        simpa using h (p + 1) (by simpa using Nat.succ_lt_succ hp))
      exact ⟨by simp [runAttempts, hf, hrec.1], by simp [runAttempts, hf, hrec.2]⟩

theorem attemptList_length (args : List PyArg) (n i : Nat) (m : String) :
    (attemptList args n i m).length = n + (fallbackOrderGet m).length := by
  simp [attemptList]

theorem retry_calls_and_outcome {ε ρ : Type} (func : Nat → List PyArg → Except ε ρ)
    (args : List PyArg) (n : Nat) (modelName : Option String) (i : Nat) (m : String)
    (hres : resolvedModel modelName args = some (i, m)) :
    (retry_with_fallback func args n modelName).calls
      = (runAttempts func 0 (attemptList args n i m) none).1 ∧
    ∀ r, ((retry_with_fallback func args n modelName).outcome = .ok r ↔
      (runAttempts func 0 (attemptList args n i m) none).2 = .ok r) := by
  rcases hRA : runAttempts func 0 (attemptList args n i m) none with ⟨cs, out⟩
  cases out with
  | ok r => simp [retry_with_fallback, hres, hRA]
  | error oe =>
    cases oe with
    | none =>
      refine ⟨by simp [retry_with_fallback, hres, hRA], fun r => ?_⟩
      simp [retry_with_fallback, hres, hRA]
    | some e =>
      refine ⟨by simp [retry_with_fallback, hres, hRA], fun r => ?_⟩
      simp [retry_with_fallback, hres, hRA]

/-- C2: with the model argument resolved to index `i` and model `m`, the
retry engine works through `attemptList args n i m` — the primary argument
list `n = max_retries` times, then each fallback model once, in chain order —
so (1) the argument lists actually passed to the stage function are an
initial segment of that sequence, (2) on success the returned value is the
result of the first successful call and no later call is made, and (3) when
every call fails the stage function is called exactly
`n + (fallback chain length)` times and the engine raises. -/
theorem retry_engine_attempt_order {ε ρ : Type} (func : Nat → List PyArg → Except ε ρ)
    (args : List PyArg) (n : Nat) (modelName : Option String) (i : Nat) (m : String)
    (hres : resolvedModel modelName args = some (i, m)) :
    (∃ t, t ≤ (attemptList args n i m).length ∧
      (retry_with_fallback func args n modelName).calls = (attemptList args n i m).take t)
    ∧ (∀ r, (retry_with_fallback func args n modelName).outcome = .ok r →
        ∃ j, j < (attemptList args n i m).length ∧
          (retry_with_fallback func args n modelName).calls
            = (attemptList args n i m).take (j + 1) ∧
          func j ((attemptList args n i m).getD j []) = .ok r ∧
          ∀ p, p < j → exIsOk (func p ((attemptList args n i m).getD p [])) = false)
    ∧ ((∀ p, p < (attemptList args n i m).length →
          exIsOk (func p ((attemptList args n i m).getD p [])) = false) →
        (retry_with_fallback func args n modelName).calls = attemptList args n i m ∧
        (retry_with_fallback func args n modelName).calls.length
          = n + (fallbackOrderGet m).length ∧
        exIsOk (retry_with_fallback func args n modelName).outcome = false) := by
  obtain ⟨hcalls, hok⟩ := retry_calls_and_outcome func args n modelName i m hres
  refine ⟨?_, ?_, ?_⟩
  · obtain ⟨t, ht, hc⟩ := runAttempts_calls_take func (attemptList args n i m) 0 none
    exact ⟨t, ht, by rw [hcalls, hc]⟩
  · intro r hr
    have hr2 : (runAttempts func 0 (attemptList args n i m) none).2 = .ok r := (hok r).mp hr
    obtain ⟨j, hj, hc, hfj, hfail⟩ := runAttempts_ok func (attemptList args n i m) 0 none r hr2
    exact ⟨j, hj, by rw [hcalls, hc], by simpa using hfj, fun p hp => by simpa using hfail p hp⟩
  · intro hall
    obtain ⟨hc, hno⟩ := runAttempts_allFail_not_ok func (attemptList args n i m) 0 none
      (fun p hp => by simpa using hall p hp)
    refine ⟨by rw [hcalls, hc], by rw [hcalls, hc, attemptList_length], ?_⟩
    rcases hout : (retry_with_fallback func args n modelName).outcome with e | r
    · simp [exIsOk]
    · exfalso
      have hr2 := (hok r).mp hout
      rw [hr2] at hno
      simp [exIsOk] at hno

/-- Stage function for the C2 witness: fails on the first two calls, then
succeeds — so the two primary attempts fail and the first fallback attempt
succeeds. -/
def c2Func : Nat → List PyArg → Except String String := fun idx _ =>
  if idx < 2 then .error ("boom") else .ok ("done")

theorem retry_engine_attempt_order_witness :
    resolvedModel none [PyArg.str ("llama3.2:latest")] = some (0, "llama3.2:latest") ∧
    ((∃ t, t ≤ (attemptList [PyArg.str ("llama3.2:latest")] 2 0 ("llama3.2:latest")).length ∧
      (retry_with_fallback c2Func [PyArg.str ("llama3.2:latest")] 2 none).calls
        = (attemptList [PyArg.str ("llama3.2:latest")] 2 0 ("llama3.2:latest")).take t)
    ∧ (∀ r, (retry_with_fallback c2Func [PyArg.str ("llama3.2:latest")] 2 none).outcome = .ok r →
        ∃ j, j < (attemptList [PyArg.str ("llama3.2:latest")] 2 0 ("llama3.2:latest")).length ∧
          (retry_with_fallback c2Func [PyArg.str ("llama3.2:latest")] 2 none).calls
            = (attemptList [PyArg.str ("llama3.2:latest")] 2 0 ("llama3.2:latest")).take (j + 1) ∧
          c2Func j ((attemptList [PyArg.str ("llama3.2:latest")] 2 0 ("llama3.2:latest")).getD j [])
            = .ok r ∧
          ∀ p, p < j →
            exIsOk (c2Func p
              ((attemptList [PyArg.str ("llama3.2:latest")] 2 0 ("llama3.2:latest")).getD p []))
              = false)
    ∧ ((∀ p, p < (attemptList [PyArg.str ("llama3.2:latest")] 2 0 ("llama3.2:latest")).length →
          exIsOk (c2Func p
            ((attemptList [PyArg.str ("llama3.2:latest")] 2 0 ("llama3.2:latest")).getD p []))
            = false) →
        (retry_with_fallback c2Func [PyArg.str ("llama3.2:latest")] 2 none).calls
          = attemptList [PyArg.str ("llama3.2:latest")] 2 0 ("llama3.2:latest") ∧
        (retry_with_fallback c2Func [PyArg.str ("llama3.2:latest")] 2 none).calls.length
          = 2 + (fallbackOrderGet ("llama3.2:latest")).length ∧
        exIsOk (retry_with_fallback c2Func [PyArg.str ("llama3.2:latest")] 2 none).outcome
          = false)) :=
  ⟨by decide,
   retry_engine_attempt_order c2Func [PyArg.str ("llama3.2:latest")] 2 none 0
     ("llama3.2:latest") (by decide)⟩

/-- Stage function for the C3 counterexample and witness: every call fails,
raising the call's index as the error, so the last-seen underlying error of a
4-attempt run is `3`. -/
def c3Func : Nat → List PyArg → Except Nat Unit := fun idx _ => .error idx

/-- C3 counterexample: with 2 primary retries on `llama3.2:latest` and its
2-model fallback chain all failing (last underlying error `3`), the engine's
raised exception is the bare last underlying error (`PyExc.raw 3`), which is
not the spec's aggregated `PipelineStageError` and carries no stage name; no
`PipelineStageError` class exists anywhere in the sources. -/
theorem retry_engine_raw_error_cex :
    (retry_with_fallback c3Func [PyArg.str ("llama3.2:latest")] 2 none).outcome
      = .error (.raw 3) ∧
    PyExc.isStageError (PyExc.raw (3 : Nat)) = false := by
  constructor
  · rfl
  · rfl

/-- C3 amended: when every attempt (all primary retries and every fallback)
fails, the retry engine re-raises the last-seen underlying error itself,
unwrapped (`raise last_error`); the raised value is never the spec's
aggregated `PipelineStageError`. -/
theorem retry_engine_reraises_last_error {ε ρ : Type} (func : Nat → List PyArg → Except ε ρ)
    (args : List PyArg) (n : Nat) (modelName : Option String) (i : Nat) (m : String)
    (errF : Nat → ε)
    (hres : resolvedModel modelName args = some (i, m))
    (hne : (attemptList args n i m).length ≠ 0)
    (hf : ∀ p, p < (attemptList args n i m).length →
        func p ((attemptList args n i m).getD p []) = .error (errF p)) :
    (retry_with_fallback func args n modelName).outcome
      = .error (.raw (errF ((attemptList args n i m).length - 1))) ∧
    ∀ s c, (retry_with_fallback func args n modelName).outcome
      ≠ .error (.stageError s c) := by
  obtain ⟨hc, hout⟩ := runAttempts_allFail func (attemptList args n i m) 0 none errF
    (fun p hp => by simpa using hf p hp)
  rw [if_neg hne] at hout
  have hmain : (retry_with_fallback func args n modelName).outcome
      = .error (.raw (errF ((attemptList args n i m).length - 1))) := by
    rcases hRA : runAttempts func 0 (attemptList args n i m) none with ⟨cs, out⟩
    rw [hRA] at hout
    simp only at hout
    subst hout
    simp [retry_with_fallback, hres, hRA]
  refine ⟨hmain, fun s c => ?_⟩
  rw [hmain]
  intro hcontra
  simp at hcontra

theorem retry_engine_reraises_last_error_witness :
    resolvedModel none [PyArg.str ("llama3.2:latest")] = some (0, "llama3.2:latest") ∧
    (attemptList [PyArg.str ("llama3.2:latest")] 2 0 ("llama3.2:latest")).length ≠ 0 ∧
    (∀ p, p < (attemptList [PyArg.str ("llama3.2:latest")] 2 0 ("llama3.2:latest")).length →
        c3Func p ((attemptList [PyArg.str ("llama3.2:latest")] 2 0 ("llama3.2:latest")).getD p [])
          = .error p) ∧
    ((retry_with_fallback c3Func [PyArg.str ("llama3.2:latest")] 2 none).outcome
      = .error (.raw
          ((attemptList [PyArg.str ("llama3.2:latest")] 2 0 ("llama3.2:latest")).length - 1)) ∧
    ∀ s c, (retry_with_fallback c3Func [PyArg.str ("llama3.2:latest")] 2 none).outcome
      ≠ .error (.stageError s c)) :=
  ⟨by decide, by decide, by decide,
   retry_engine_reraises_last_error c3Func [PyArg.str ("llama3.2:latest")] 2 none 0
     ("llama3.2:latest") (fun p => p) (by decide) (by decide) (by decide)⟩

/-- C10: when the model argument cannot be resolved — an explicit
`model_name` that matches no positional argument, or, with `model_name`
omitted, no positional string argument belonging to `OLLAMA_MODELS.values()`
— the engine raises `ValueError("No model argument found")` without invoking
the stage function even once (the recorded call list is empty). -/
theorem retry_no_model_raises_value_error {ε ρ : Type} (func : Nat → List PyArg → Except ε ρ)
    (args : List PyArg) (n : Nat) :
    (∀ m : String, PyArg.str m ∉ args →
        retry_with_fallback func args n (some m)
          = ⟨[], .error (.valueError ("No model argument found"))⟩)
    ∧ ((∀ s : String, PyArg.str s ∈ args → s ∉ ollamaModelValues) →
        retry_with_fallback func args n none
          = ⟨[], .error (.valueError ("No model argument found"))⟩) := by
  have hnamed : ∀ (m : String) (l : List PyArg) (j : Nat), PyArg.str m ∉ l →
      findModelNamed m l j = none := by
    intro m l
    induction l with
    | nil => intro j h; simp [findModelNamed]
    | cons a rest ih =>
      intro j h
      cases a with
      | str s =>
        have hs : s ≠ m := by
          intro hsm; exact h (by simp [hsm])
        simp [findModelNamed, hs]
        exact ih (j + 1) (fun hmem => h (List.mem_cons_of_mem _ hmem))
      | other t =>
        simp [findModelNamed]
        exact ih (j + 1) (fun hmem => h (List.mem_cons_of_mem _ hmem))
  have hauto : ∀ (l : List PyArg) (j : Nat),
      (∀ s : String, PyArg.str s ∈ l → s ∉ ollamaModelValues) →
      findModelAuto l j = none := by
    intro l
    induction l with
    | nil => intro j h; simp [findModelAuto]
    | cons a rest ih =>
      intro j h
      cases a with
      | str s =>
        have hs : s ∉ ollamaModelValues := h s (by simp)
        simp [findModelAuto, hs]
        exact ih (j + 1) (fun s2 hmem => h s2 (List.mem_cons_of_mem _ hmem))
      | other t =>
        simp [findModelAuto]
        exact ih (j + 1) (fun s2 hmem => h s2 (List.mem_cons_of_mem _ hmem))
  constructor
  · intro m hm
    have : resolvedModel (some m) args = none := by
      simp [resolvedModel, hnamed m args 0 hm]
    simp [retry_with_fallback, this]
  · intro hall
    have : resolvedModel none args = none := by
      simp [resolvedModel, hauto args 0 hall]
    simp [retry_with_fallback, this]

/-- Stage function for the C10 witness (never reached). -/
def c10Func : Nat → List PyArg → Except Unit Unit := fun _ _ => .ok ()

theorem retry_no_model_raises_value_error_witness :
    (PyArg.str ("llama3.2:latest") ∉ [PyArg.other 0, PyArg.str ("notamodel")]) ∧
    retry_with_fallback c10Func [PyArg.other 0, PyArg.str ("notamodel")] 2
        (some ("llama3.2:latest"))
      = ⟨[], .error (.valueError ("No model argument found"))⟩ ∧
    retry_with_fallback c10Func [PyArg.other 0, PyArg.str ("notamodel")] 2 none
      = ⟨[], .error (.valueError ("No model argument found"))⟩ :=
  ⟨by decide,
   (retry_no_model_raises_value_error c10Func [PyArg.other 0, PyArg.str ("notamodel")] 2).1
     ("llama3.2:latest") (by decide),
   (retry_no_model_raises_value_error c10Func [PyArg.other 0, PyArg.str ("notamodel")] 2).2
     (by
       intro s hs
       simp only [List.mem_cons, List.not_mem_nil, or_false] at hs
       rcases hs with hs | hs
       · exact absurd hs (by simp)
       · injection hs with h
         subst h
         decide)⟩

/-! ## Output sanitizer (`ui_components.sanitize_output`)

Python `str` values are modelled as `List Char`; the marker test, `split`,
`replace`, `splitlines`, `strip` and `join` are embedded below over
character lists. -/

/-- Python's whitespace set as used by `str.strip()` / `str.isspace()`
(ASCII and Latin-1 whitespace plus the Unicode space and line separators). -/
def pyIsSpace (c : Char) : Bool :=
  c ∈ [' ', '\t', '\n', '\x0b', '\x0c', '\r', '\x1c', '\x1d', '\x1e', '\x1f',
       '\x85', '\xa0', '\u1680', '\u2000', '\u2001', '\u2002', '\u2003',
       '\u2004', '\u2005', '\u2006', '\u2007', '\u2008', '\u2009', '\u200a',
       '\u2028', '\u2029', '\u202f', '\u205f', '\u3000']

/-- The line-boundary set of Python's `str.splitlines()`. -/
def pyIsLineBreak (c : Char) : Bool :=
  c ∈ ['\n', '\r', '\x0b', '\x0c', '\x1c', '\x1d', '\x1e', '\x85', '\u2028', '\u2029']

/-- Python `str.strip()` with no arguments: drop whitespace from both ends. -/
def pyStrip (s : List Char) : List Char :=
  ((s.dropWhile pyIsSpace).reverse.dropWhile pyIsSpace).reverse

/-- Whether `s` starts with `pat` (`str.startswith`). -/
def startsWithL : List Char → List Char → Bool
  | _, [] => true
  | [], _ :: _ => false
  | a :: s, b :: p => a == b && startsWithL s p

/-- Python's substring test `pat in s`. -/
def containsSubL (pat : List Char) : List Char → Bool
  | [] => pat.isEmpty
  | a :: t => startsWithL (a :: t) pat || containsSubL pat t

/-- The part of `s` strictly after the first occurrence of `pat`
(`s.split(pat, 1)[1]` when `pat` occurs in `s`). -/
def afterFirst (pat : List Char) : List Char → List Char
  | [] => []
  | a :: t => if startsWithL (a :: t) pat then (a :: t).drop pat.length else afterFirst pat t

/-- Python `s.replace(pat, rep)` for a non-empty `pat`, fuel-indexed so that
it is structurally recursive (each step consumes at least one character, so
`fuel = s.length` always suffices; exhausted fuel returns the rest
unchanged, which the wrapper never reaches). -/
def listReplaceF (pat rep : List Char) : Nat → List Char → List Char
  | _, [] => []
  | 0, s => s
  | fuel + 1, a :: t =>
      if pat ≠ [] ∧ startsWithL (a :: t) pat then
        rep ++ listReplaceF pat rep fuel ((a :: t).drop pat.length)
      else
        a :: listReplaceF pat rep fuel t

/-- Python `s.replace(pat, rep)` for a non-empty `pat`: replace every
non-overlapping occurrence, scanning left to right. (For `pat = []` this is
the identity; the sanitizer only uses non-empty patterns.) -/
def listReplace (pat rep s : List Char) : List Char := listReplaceF pat rep s.length s

/-- After a line boundary at `c`, the remaining input: a `"\r\n"` pair is a
single boundary, so a `'\n'` immediately following a `'\r'` is skipped. -/
def skipLF (c : Char) (t : List Char) : List Char :=
  if c == '\r' && t.head? == some '\n' then t.tail else t

theorem skipLF_length (c : Char) (t : List Char) : (skipLF c t).length ≤ t.length := by
  rw [skipLF]
  split
  · cases t <;> simp
  · simp

/-- Python `str.splitlines()`, accumulator form with fuel: `cur` holds the
(reversed) current line; a `"\r\n"` pair is one boundary; no trailing empty
line is produced. Each step consumes at least one character, so
`fuel = s.length` always suffices. -/
def splitLinesF : Nat → List Char → List Char → List (List Char)
  | _, cur, [] => if cur.isEmpty then [] else [cur.reverse]
  | 0, cur, _ :: _ => if cur.isEmpty then [] else [cur.reverse]
  | fuel + 1, cur, c :: t =>
      if pyIsLineBreak c then
        cur.reverse :: splitLinesF fuel [] (skipLF c t)
      else splitLinesF fuel (c :: cur) t

/-- Python `str.splitlines()`. -/
def splitLines (s : List Char) : List (List Char) := splitLinesF s.length [] s

/-- Python `"\n".join(lines)`. -/
def joinNL : List (List Char) → List Char
  | [] => []
  | [l] => l
  | l :: ls => l ++ '\n' :: joinNL ls

/-- The sentinel marker `"PRESENT TO USER:"`. -/
def markerChars : List Char := "PRESENT TO USER:".toList

/-- `ui_components.sanitize_output`: on empty input return `""`; remove the
formatting artifacts `"```"`, `"**"`, `"#"`, `"`"` in that order; if the
sentinel marker is present keep only the text after its first occurrence;
strip each line, drop blank lines, join with newlines, and trim. -/
def sanitize_output (text : List Char) : List Char :=
  if text = [] then []
  else
    let t1 := listReplace ("**".toList) [] (listReplace ("```".toList) [] text)
    let t2 := listReplace ("`".toList) [] (listReplace ("#".toList) [] t1)
    let t3 := if containsSubL markerChars t2 then afterFirst markerChars t2 else t2
    let lines := ((splitLines t3).map pyStrip).filter (fun l => !l.isEmpty)
    pyStrip (joinNL lines)

/-- The artifact-removal step of the cleanup, named for the amended claims:
the four `replace` calls of `sanitize_output` in source order. -/
def stripArtifacts (text : List Char) : List Char :=
  listReplace ("`".toList) []
    (listReplace ("#".toList) []
      (listReplace ("**".toList) []
        (listReplace ("```".toList) [] text)))

/-- The whitespace-normalization step of the cleanup, named for the amended
claims: strip each line, drop blank lines, join with `"\n"`, trim. -/
def normWS (s : List Char) : List Char :=
  pyStrip (joinNL (((splitLines s).map pyStrip).filter (fun l => !l.isEmpty)))

/-! ### Character-level lemmas about the sanitizer's building blocks -/

theorem startsWithL_chars : ∀ (pat s : List Char), startsWithL s pat = true →
    ∀ c ∈ pat, c ∈ s := by
  intro pat
  induction pat with
  | nil => intro s _ c hc; simp at hc
  | cons b p ih =>
    intro s hs c hc
    cases s with
    | nil => simp [startsWithL] at hs
    | cons a s2 =>
      simp only [startsWithL, Bool.and_eq_true, beq_iff_eq] at hs
      rcases List.mem_cons.mp hc with hc | hc
      · subst hc; rw [hs.1]; exact List.mem_cons_self _ _
      · exact List.mem_cons_of_mem _ (ih s2 hs.2 c hc)

theorem containsSubL_chars : ∀ (s pat : List Char), containsSubL pat s = true →
    ∀ c ∈ pat, c ∈ s := by
  intro s
  induction s with
  | nil =>
    intro pat h c hc
    simp only [containsSubL, List.isEmpty_iff] at h
    subst h; simp at hc
  | cons a t ih =>
    intro pat h c hc
    simp only [containsSubL, Bool.or_eq_true] at h
    rcases h with h | h
    · exact startsWithL_chars pat (a :: t) h c hc
    · exact List.mem_cons_of_mem _ (ih pat h c hc)

theorem listReplaceF_not_contains (pat rep : List Char) :
    ∀ (fuel : Nat) (s : List Char), s.length ≤ fuel → containsSubL pat s = false →
    listReplaceF pat rep fuel s = s := by
  intro fuel
  induction fuel with
  | zero =>
    intro s hs _
    cases s with
    | nil => rfl
    | cons a t => simp at hs
  | succ k ih =>
    intro s hs h
    cases s with
    | nil => rfl
    | cons a t =>
      simp only [containsSubL, Bool.or_eq_false_iff] at h
      rw [listReplaceF, if_neg]
      · rw [ih t (by simp only [List.length_cons] at hs; omega) h.2]
      · intro hcond
        rw [hcond.2] at h
        simp at h

theorem listReplace_not_contains (s pat rep : List Char)
    (h : containsSubL pat s = false) : listReplace pat rep s = s :=
  listReplaceF_not_contains pat rep s.length s le_rfl h

theorem listReplaceF_single (c0 : Char) :
    ∀ (fuel : Nat) (s : List Char), s.length ≤ fuel →
    listReplaceF [c0] [] fuel s = s.filter (fun x => !(x == c0)) := by
  intro fuel
  induction fuel with
  | zero =>
    intro s hs
    cases s with
    | nil => rfl
    | cons a t => simp at hs
  | succ k ih =>
    intro s hs
    cases s with
    | nil => rfl
    | cons a t =>
      by_cases hac : a = c0
      · subst hac
        rw [listReplaceF, if_pos]
        · simp only [List.length_cons, List.length_nil, List.drop_succ_cons, List.drop_zero,
            List.nil_append]
          rw [ih t (by simp only [List.length_cons] at hs; omega)]
          simp [List.filter_cons]
        · exact ⟨by simp, by simp [startsWithL]⟩
      · rw [listReplaceF, if_neg]
        · rw [ih t (by simp only [List.length_cons] at hs; omega)]
          simp [List.filter_cons, hac]
        · intro hcond
          have h2 := hcond.2
          simp [startsWithL] at h2
          exact hac h2

theorem listReplace_single (s : List Char) (c0 : Char) :
    listReplace [c0] [] s = s.filter (fun x => !(x == c0)) :=
  listReplaceF_single c0 s.length s le_rfl

theorem listReplaceF_del_subset (pat : List Char) :
    ∀ (fuel : Nat) (s : List Char), ∀ x ∈ listReplaceF pat [] fuel s, x ∈ s := by
  intro fuel
  induction fuel with
  | zero =>
    intro s x hx
    cases s with
    | nil => simpa [listReplaceF] using hx
    | cons a t => exact hx
  | succ k ih =>
    intro s x hx
    cases s with
    | nil => simpa [listReplaceF] using hx
    | cons a t =>
      by_cases hcond : pat ≠ [] ∧ startsWithL (a :: t) pat
      · rw [listReplaceF, if_pos hcond] at hx
        simp only [List.nil_append] at hx
        exact List.mem_of_mem_drop (ih _ x hx)
      · rw [listReplaceF, if_neg hcond] at hx
        rcases List.mem_cons.mp hx with hx | hx
        · subst hx; exact List.mem_cons_self _ _
        · exact List.mem_cons_of_mem _ (ih t x hx)

theorem listReplace_del_subset (pat s : List Char) :
    ∀ x ∈ listReplace pat [] s, x ∈ s :=
  fun x hx => listReplaceF_del_subset pat s.length s x hx

theorem afterFirst_subset (pat : List Char) : ∀ (s : List Char),
    ∀ x ∈ afterFirst pat s, x ∈ s := by
  intro s
  induction s with
  | nil => intro x hx; simpa [afterFirst] using hx
  | cons a t ih =>
    intro x hx
    rw [afterFirst] at hx
    split at hx
    · exact List.mem_of_mem_drop hx
    · exact List.mem_cons_of_mem _ (ih x hx)

theorem dropWhile_head_not (p : Char → Bool) : ∀ (l : List Char) (c : Char),
    (l.dropWhile p).head? = some c → p c = false := by
  intro l
  induction l with
  | nil => intro c hc; simp [List.dropWhile] at hc
  | cons a t ih =>
    intro c hc
    by_cases hpa : p a
    · rw [List.dropWhile_cons_of_pos hpa] at hc
      exact ih c hc
    · rw [List.dropWhile_cons_of_neg hpa] at hc
      simp only [List.head?_cons, Option.some_inj] at hc
      subst hc
      simpa using hpa

theorem dropWhile_eq_self_of_head (p : Char → Bool) (l : List Char)
    (h : ∀ c, l.head? = some c → p c = false) : l.dropWhile p = l := by
  cases l with
  | nil => rfl
  | cons a t =>
    have := h a (by simp)
    simp [List.dropWhile, this]

theorem dropWhile_sfx (p : Char → Bool) : ∀ (l : List Char),
    ∃ u, u ++ l.dropWhile p = l := by
  intro l
  induction l with
  | nil => exact ⟨[], rfl⟩
  | cons a t ih =>
    by_cases hpa : p a
    · obtain ⟨u, hu⟩ := ih
      exact ⟨a :: u, by simp [List.dropWhile_cons_of_pos hpa, hu]⟩
    · exact ⟨[], by simp [List.dropWhile_cons_of_neg hpa]⟩

theorem mem_dropWhile (p : Char → Bool) (l : List Char) :
    ∀ x ∈ l.dropWhile p, x ∈ l := by
  intro x hx
  obtain ⟨u, hu⟩ := dropWhile_sfx p l
  rw [← hu]
  exact List.mem_append_right u hx

theorem mem_pyStrip (l : List Char) : ∀ x ∈ pyStrip l, x ∈ l := by
  intro x hx
  rw [pyStrip, List.mem_reverse] at hx
  have hx2 := mem_dropWhile pyIsSpace _ x hx
  rw [List.mem_reverse] at hx2
  exact mem_dropWhile pyIsSpace l x hx2

theorem head_pyStrip_not_space (l : List Char) :
    ∀ c, (pyStrip l).head? = some c → pyIsSpace c = false := by
  intro c hc
  rw [pyStrip] at hc
  obtain ⟨u, hu⟩ := dropWhile_sfx pyIsSpace (l.dropWhile pyIsSpace).reverse
  set w := (l.dropWhile pyIsSpace).reverse.dropWhile pyIsSpace with hw
  have hyw : l.dropWhile pyIsSpace = w.reverse ++ u.reverse := by
    have := congrArg List.reverse hu
    simpa [List.reverse_append] using this.symm
  cases hwr : w.reverse with
  | nil => rw [hwr] at hc; simp at hc
  | cons x r =>
    rw [hwr] at hc
    simp only [List.head?_cons, Option.some_inj] at hc
    subst hc
    apply dropWhile_head_not pyIsSpace l
    rw [hyw, hwr]
    simp

theorem last_pyStrip_not_space (l : List Char) :
    ∀ c, (pyStrip l).getLast? = some c → pyIsSpace c = false := by
  intro c hc
  rw [pyStrip, List.getLast?_reverse] at hc
  exact dropWhile_head_not pyIsSpace _ c hc

theorem pyStrip_eq_self (l : List Char)
    (hh : ∀ c, l.head? = some c → pyIsSpace c = false)
    (hl : ∀ c, l.getLast? = some c → pyIsSpace c = false) : pyStrip l = l := by
  rw [pyStrip]
  rw [dropWhile_eq_self_of_head pyIsSpace l hh]
  rw [dropWhile_eq_self_of_head pyIsSpace l.reverse
    (fun c hc => hl c (by rwa [List.head?_reverse] at hc))]
  exact List.reverse_reverse l

theorem pyStrip_idem (l : List Char) : pyStrip (pyStrip l) = pyStrip l :=
  pyStrip_eq_self (pyStrip l) (head_pyStrip_not_space l) (last_pyStrip_not_space l)

theorem skipLF_subset (c0 : Char) (t : List Char) : ∀ x ∈ skipLF c0 t, x ∈ t := by
  intro x hx
  rw [skipLF] at hx
  split at hx
  · cases t with
    | nil => simpa using hx
    | cons a r => exact List.mem_cons_of_mem _ hx
  · exact hx

theorem splitLinesF_mem : ∀ (fuel : Nat) (s : List Char), s.length ≤ fuel →
    ∀ (cur : List Char), (∀ c ∈ cur, pyIsLineBreak c = false) →
    ∀ l ∈ splitLinesF fuel cur s, ∀ c ∈ l, (c ∈ cur ∨ c ∈ s) ∧ pyIsLineBreak c = false := by
  intro fuel
  induction fuel with
  | zero =>
    intro s hs cur hcur l hl c hc
    have : s = [] := List.length_eq_zero.mp (Nat.le_zero.mp hs)
    subst this
    rw [splitLinesF] at hl
    split at hl
    · simp at hl
    · rw [List.mem_singleton] at hl
      subst hl
      rw [List.mem_reverse] at hc
      exact ⟨Or.inl hc, hcur c hc⟩
  | succ k ih =>
    intro s hs cur hcur l hl c hc
    cases s with
    | nil =>
      rw [splitLinesF] at hl
      split at hl
      · simp at hl
      · rw [List.mem_singleton] at hl
        subst hl
        rw [List.mem_reverse] at hc
        exact ⟨Or.inl hc, hcur c hc⟩
    | cons a t =>
      rw [splitLinesF] at hl
      by_cases hbr : pyIsLineBreak a
      · rw [if_pos hbr] at hl
        rcases List.mem_cons.mp hl with hl | hl
        · subst hl
          rw [List.mem_reverse] at hc
          exact ⟨Or.inl hc, hcur c hc⟩
        · have hlen : (skipLF a t).length ≤ k := by
            have h1 := skipLF_length a t
            simp only [List.length_cons] at hs
            omega
          have := ih (skipLF a t) hlen [] (by simp) l hl c hc
          rcases this with ⟨hmem, hnb⟩
          rcases hmem with hmem | hmem
          · simp at hmem
          · exact ⟨Or.inr (List.mem_cons_of_mem _ (skipLF_subset a t c hmem)), hnb⟩
      · rw [if_neg hbr] at hl
        have hcur2 : ∀ c2 ∈ a :: cur, pyIsLineBreak c2 = false := by
          intro c2 hc2
          rcases List.mem_cons.mp hc2 with hc2 | hc2
          · subst hc2; simpa using hbr
          · exact hcur c2 hc2
        have hlen : t.length ≤ k := by
          simp only [List.length_cons] at hs; omega
        have := ih t hlen (a :: cur) hcur2 l hl c hc
        rcases this with ⟨hmem, hnb⟩
        refine ⟨?_, hnb⟩
        rcases hmem with hmem | hmem
        · rcases List.mem_cons.mp hmem with hmem | hmem
          · subst hmem; exact Or.inr (List.mem_cons_self _ _)
          · exact Or.inl hmem
        · exact Or.inr (List.mem_cons_of_mem _ hmem)

theorem splitLinesF_append : ∀ (l : List Char), (∀ c ∈ l, pyIsLineBreak c = false) →
    ∀ (rest cur : List Char) (fuel : Nat), l.length ≤ fuel →
    splitLinesF fuel cur (l ++ rest) = splitLinesF (fuel - l.length) (l.reverse ++ cur) rest := by
  intro l
  induction l with
  | nil => intro _ rest cur fuel _; simp
  | cons c l2 ih =>
    intro h rest cur fuel hf
    have hc : pyIsLineBreak c = false := h c (List.mem_cons_self _ _)
    cases fuel with
    | zero => simp at hf
    | succ k =>
      rw [List.cons_append, splitLinesF, if_neg (by simp [hc])]
      rw [ih (fun c2 hc2 => h c2 (List.mem_cons_of_mem _ hc2)) rest (c :: cur) k
        (by simp only [List.length_cons] at hf; omega)]
      congr 1
      · simp only [List.length_cons]
        omega
      · simp

theorem splitLines_joinNL : ∀ (lines : List (List Char)),
    (∀ l ∈ lines, l ≠ [] ∧ ∀ c ∈ l, pyIsLineBreak c = false) →
    splitLines (joinNL lines) = lines := by
  intro lines
  induction lines with
  | nil => intro _; simp [splitLines, joinNL, splitLinesF]
  | cons l ls ih =>
    intro h
    obtain ⟨hl, hlc⟩ := h l (List.mem_cons_self _ _)
    cases ls with
    | nil =>
      show splitLines (joinNL [l]) = [l]
      rw [show joinNL [l] = l by simp [joinNL]]
      rw [splitLines]
      have haux := splitLinesF_append l hlc [] [] l.length le_rfl
      rw [List.append_nil] at haux
      rw [haux, Nat.sub_self, List.append_nil, splitLinesF]
      cases l with
      | nil => exact absurd rfl hl
      | cons a r => simp
    | cons l2 ls2 =>
      rw [show joinNL (l :: l2 :: ls2) = l ++ '\n' :: joinNL (l2 :: ls2) by simp [joinNL]]
      rw [splitLines]
      rw [splitLinesF_append l hlc ('\n' :: joinNL (l2 :: ls2)) [] _ (by simp)]
      rw [List.append_nil]
      have hlen : (l ++ '\n' :: joinNL (l2 :: ls2)).length - l.length
          = (joinNL (l2 :: ls2)).length + 1 := by
        simp only [List.length_append, List.length_cons]
        omega
      rw [hlen]
      rw [splitLinesF, if_pos (by decide)]
      rw [show skipLF '\n' (joinNL (l2 :: ls2)) = joinNL (l2 :: ls2) by
        rw [skipLF]; simp]
      rw [List.reverse_reverse]
      rw [show splitLinesF (joinNL (l2 :: ls2)).length [] (joinNL (l2 :: ls2))
            = splitLines (joinNL (l2 :: ls2)) from rfl]
      rw [ih (fun l' hl' => h l' (List.mem_cons_of_mem _ hl'))]

theorem joinNL_ne_nil (l : List Char) (ls : List (List Char)) (hl : l ≠ []) :
    joinNL (l :: ls) ≠ [] := by
  cases ls with
  | nil => simpa [joinNL] using hl
  | cons l2 ls2 =>
    rw [show joinNL (l :: l2 :: ls2) = l ++ '\n' :: joinNL (l2 :: ls2) by simp [joinNL]]
    simp

theorem joinNL_head (l : List Char) (ls : List (List Char)) (hl : l ≠ []) :
    (joinNL (l :: ls)).head? = l.head? := by
  cases ls with
  | nil => simp [joinNL]
  | cons l2 ls2 =>
    rw [show joinNL (l :: l2 :: ls2) = l ++ '\n' :: joinNL (l2 :: ls2) by simp [joinNL]]
    exact List.head?_append_of_ne_nil _ hl

theorem joinNL_getLast : ∀ (lines : List (List Char)), (∀ l ∈ lines, l ≠ []) →
    ∀ c, (joinNL lines).getLast? = some c → ∃ l ∈ lines, l.getLast? = some c := by
  intro lines
  induction lines with
  | nil => intro _ c hc; simp [joinNL] at hc
  | cons l ls ih =>
    intro h c hc
    cases ls with
    | nil => exact ⟨l, List.mem_cons_self _ _, by simpa [joinNL] using hc⟩
    | cons l2 ls2 =>
      rw [show joinNL (l :: l2 :: ls2) = l ++ '\n' :: joinNL (l2 :: ls2) by simp [joinNL]] at hc
      rw [List.getLast?_append_of_ne_nil _ (by simp)] at hc
      have hne : joinNL (l2 :: ls2) ≠ [] := joinNL_ne_nil l2 ls2 (h l2 (by simp))
      rw [show ('\n' :: joinNL (l2 :: ls2)) = ['\n'] ++ joinNL (l2 :: ls2) from rfl,
          List.getLast?_append_of_ne_nil _ hne] at hc
      obtain ⟨lx, hlx, hcx⟩ := ih (fun l' hl' => h l' (List.mem_cons_of_mem _ hl')) c hc
      exact ⟨lx, List.mem_cons_of_mem _ hlx, hcx⟩

theorem joinNL_mem : ∀ (lines : List (List Char)) (x : Char), x ∈ joinNL lines →
    (∃ l ∈ lines, x ∈ l) ∨ x = '\n' := by
  intro lines
  induction lines with
  | nil => intro x hx; simp [joinNL] at hx
  | cons l ls ih =>
    intro x hx
    cases ls with
    | nil => exact Or.inl ⟨l, by simp, by simpa [joinNL] using hx⟩
    | cons l2 ls2 =>
      rw [show joinNL (l :: l2 :: ls2) = l ++ '\n' :: joinNL (l2 :: ls2) by simp [joinNL]] at hx
      rcases List.mem_append.mp hx with hx | hx
      · exact Or.inl ⟨l, by simp, hx⟩
      · rcases List.mem_cons.mp hx with hx | hx
        · exact Or.inr hx
        · rcases ih x hx with ⟨lx, hlx, hxx⟩ | hx
          · exact Or.inl ⟨lx, List.mem_cons_of_mem _ hlx, hxx⟩
          · exact Or.inr hx

/-- A line as produced by the whitespace-normalization step: already
stripped, non-empty, and free of line-break characters. -/
def CleanLine (l : List Char) : Prop :=
  pyStrip l = l ∧ l ≠ [] ∧ ∀ c ∈ l, pyIsLineBreak c = false

theorem cleanLines_clean (s : List Char) :
    ∀ l ∈ ((splitLines s).map pyStrip).filter (fun l => !l.isEmpty), CleanLine l := by
  intro l hl
  rw [List.mem_filter] at hl
  obtain ⟨hmap, hne⟩ := hl
  rw [List.mem_map] at hmap
  obtain ⟨l0, hl0, rfl⟩ := hmap
  refine ⟨pyStrip_idem l0, ?_, ?_⟩
  · intro hnil
    rw [hnil] at hne
    simp at hne
  · intro c hc
    have hc0 := mem_pyStrip l0 c hc
    rw [show splitLines s = splitLinesF s.length [] s from rfl] at hl0
    exact (splitLinesF_mem s.length s le_rfl [] (by simp) l0 hl0 c hc0).2

theorem map_pyStrip_clean : ∀ (lines : List (List Char)), (∀ l ∈ lines, pyStrip l = l) →
    lines.map pyStrip = lines := by
  intro lines
  induction lines with
  | nil => intro _; rfl
  | cons l ls ih =>
    intro h
    simp only [List.map_cons]
    rw [h l (List.mem_cons_self _ _), ih (fun l' hl' => h l' (List.mem_cons_of_mem _ hl'))]

theorem pyStrip_joinNL_clean (lines : List (List Char)) (h : ∀ l ∈ lines, CleanLine l) :
    pyStrip (joinNL lines) = joinNL lines := by
  cases lines with
  | nil => rfl
  | cons l ls =>
    obtain ⟨hstrip, hne, _⟩ := h l (List.mem_cons_self _ _)
    apply pyStrip_eq_self
    · intro c hc
      rw [joinNL_head l ls hne] at hc
      have hc2 : (pyStrip l).head? = some c := by rw [hstrip]; exact hc
      exact head_pyStrip_not_space l c hc2
    · intro c hc
      obtain ⟨lx, hlx, hcx⟩ := joinNL_getLast (l :: ls) (fun l' hl' => (h l' hl').2.1) c hc
      have hc2 : (pyStrip lx).getLast? = some c := by rw [(h lx hlx).1]; exact hcx
      exact last_pyStrip_not_space lx c hc2

theorem normWS_joinNL_clean (lines : List (List Char)) (h : ∀ l ∈ lines, CleanLine l) :
    normWS (joinNL lines) = joinNL lines := by
  rw [normWS]
  rw [splitLines_joinNL lines (fun l hl => ⟨(h l hl).2.1, (h l hl).2.2⟩)]
  rw [map_pyStrip_clean lines (fun l hl => (h l hl).1)]
  rw [List.filter_eq_self.mpr (fun l hl => by
    have hne := (h l hl).2.1
    cases l with
    | nil => exact absurd rfl hne
    | cons a r => rfl)]
  exact pyStrip_joinNL_clean lines h

/-! ### The sanitizer as marker split plus normalization -/

theorem sanitize_output_eq_normWS (t : List Char) (ht : t ≠ []) :
    sanitize_output t =
      normWS (if containsSubL markerChars (stripArtifacts t) = true
        then afterFirst markerChars (stripArtifacts t) else stripArtifacts t) := by
  rw [sanitize_output, if_neg ht]
  by_cases hm : containsSubL markerChars (stripArtifacts t) = true
  · have hm2 := hm
    simp only [stripArtifacts] at hm2
    simp [normWS, stripArtifacts, hm, hm2]
  · have hm0 : containsSubL markerChars (stripArtifacts t) = false :=
      Bool.not_eq_true _ ▸ (by simpa using hm)
    have hm2 := hm0
    simp only [stripArtifacts] at hm2
    simp [normWS, stripArtifacts, hm0, hm2]

theorem sanitize_output_is_join_clean (t : List Char) :
    ∃ lines, (∀ l ∈ lines, CleanLine l) ∧ sanitize_output t = joinNL lines := by
  by_cases ht : t = []
  · refine ⟨[], by simp, ?_⟩
    subst ht
    simp [sanitize_output, joinNL]
  · rw [sanitize_output_eq_normWS t ht]
    refine ⟨((splitLines (if containsSubL markerChars (stripArtifacts t) = true
        then afterFirst markerChars (stripArtifacts t) else stripArtifacts t)).map
        pyStrip).filter (fun l => !l.isEmpty), cleanLines_clean _, ?_⟩
    rw [normWS]
    exact pyStrip_joinNL_clean _ (cleanLines_clean _)

theorem normWS_chars (s : List Char) : ∀ x ∈ normWS s, x = '\n' ∨ x ∈ s := by
  intro x hx
  rw [normWS] at hx
  have hx1 := mem_pyStrip _ x hx
  rcases joinNL_mem _ x hx1 with ⟨l, hl, hxl⟩ | hnl
  · rw [List.mem_filter] at hl
    obtain ⟨hmap, _⟩ := hl
    rw [List.mem_map] at hmap
    obtain ⟨l0, hl0, rfl⟩ := hmap
    have hx2 := mem_pyStrip l0 x hxl
    rw [show splitLines s = splitLinesF s.length [] s from rfl] at hl0
    have h2 := splitLinesF_mem s.length s le_rfl [] (by simp) l0 hl0 x hx2
    rcases h2.1 with h | h
    · simp at h
    · exact Or.inr h
  · exact Or.inl hnl

theorem stripArtifacts_no_hash_tick (t : List Char) :
    (('#' : Char) ∉ stripArtifacts t) ∧ (('\x60' : Char) ∉ stripArtifacts t) := by
  rw [stripArtifacts]
  have hhash : ('#' : Char) ∉ listReplace ("#".toList) []
      (listReplace ("**".toList) [] (listReplace ("```".toList) [] t)) := by
    rw [show ("#".toList) = ['#'] by decide, listReplace_single]
    intro hmem
    rw [List.mem_filter] at hmem
    simp at hmem
  constructor
  · intro hmem
    exact hhash (listReplace_del_subset ("`".toList) _ '#' hmem)
  · rw [show ("`".toList) = ['\x60'] by decide, listReplace_single]
    intro hmem
    rw [List.mem_filter] at hmem
    simp at hmem

theorem sanitize_output_chars_sub (t : List Char) :
    ∀ x ∈ sanitize_output t, x = '\n' ∨ x ∈ stripArtifacts t := by
  by_cases ht : t = []
  · intro x hx
    subst ht
    simp [sanitize_output] at hx
  · intro x hx
    rw [sanitize_output_eq_normWS t ht] at hx
    rcases normWS_chars _ x hx with h | h
    · exact Or.inl h
    · split at h
      · exact Or.inr (afterFirst_subset markerChars _ x h)
      · exact Or.inr h

theorem sanitize_output_no_artifacts (t : List Char) :
    (('#' : Char) ∉ sanitize_output t) ∧ (('\x60' : Char) ∉ sanitize_output t) := by
  have hsa := stripArtifacts_no_hash_tick t
  constructor
  · intro hmem
    rcases sanitize_output_chars_sub t '#' hmem with h | h
    · exact absurd h (by decide)
    · exact hsa.1 h
  · intro hmem
    rcases sanitize_output_chars_sub t '\x60' hmem with h | h
    · exact absurd h (by decide)
    · exact hsa.2 h

/-- C6 counterexample: the output-cleanup step (`sanitize_output`) does more
than marker stripping. On the draft `"PRESENT TO USER: a#b"` (which contains
the marker) the result is `"ab"`, not the substring strictly after the marker
trimmed of whitespace (`"a#b"`), because the `"#"` formatting artifact is
deleted first; and the draft `"a#b"` with no marker is returned as `"ab"`,
not unmodified. -/
theorem sanitize_cleanup_cex :
    sanitize_output (("PRESENT TO USER: a#b").toList)
      ≠ pyStrip (afterFirst markerChars (("PRESENT TO USER: a#b").toList)) ∧
    sanitize_output (("a#b").toList) ≠ ("a#b").toList := by
  constructor
  · decide
  · decide

/-- C6 amended: the output-cleanup step first deletes the formatting
artifacts `"```"`, `"**"`, `"#"`, `"`"` (in that order), then, if the
sentinel marker `"PRESENT TO USER:"` occurs in the artifact-stripped draft,
keeps exactly the substring strictly after the marker's first occurrence,
and finally normalizes whitespace (strips each line, drops blank lines,
joins with newlines, trims); a draft without the marker undergoes the same
artifact removal and whitespace normalization, and is returned unmodified
exactly when it is already artifact-free and whitespace-normal. -/
theorem sanitize_cleanup_decomposed (t : List Char) :
    (t ≠ [] → containsSubL markerChars (stripArtifacts t) = true →
      sanitize_output t = normWS (afterFirst markerChars (stripArtifacts t))) ∧
    (t ≠ [] → containsSubL markerChars (stripArtifacts t) = false →
      sanitize_output t = normWS (stripArtifacts t)) ∧
    (containsSubL markerChars (stripArtifacts t) = false → stripArtifacts t = t →
      normWS t = t → sanitize_output t = t) := by
  refine ⟨?_, ?_, ?_⟩
  · intro ht hc
    rw [sanitize_output_eq_normWS t ht, if_pos hc]
  · intro ht hc
    rw [sanitize_output_eq_normWS t ht, if_neg (by simp [hc])]
  · intro hc hsa hnw
    by_cases ht : t = []
    · subst ht
      simp [sanitize_output]
    · rw [sanitize_output_eq_normWS t ht, if_neg (by simp [hc]), hsa, hnw]

theorem sanitize_cleanup_decomposed_witness :
    (("x PRESENT TO USER:  y ").toList ≠ ([] : List Char)) ∧
    containsSubL markerChars (stripArtifacts (("x PRESENT TO USER:  y ").toList)) = true ∧
    sanitize_output (("x PRESENT TO USER:  y ").toList)
      = normWS (afterFirst markerChars (stripArtifacts (("x PRESENT TO USER:  y ").toList))) ∧
    containsSubL markerChars (stripArtifacts (("hello").toList)) = false ∧
    stripArtifacts (("hello").toList) = ("hello").toList ∧
    normWS (("hello").toList) = ("hello").toList ∧
    sanitize_output (("hello").toList) = ("hello").toList :=
  ⟨by decide, by decide,
   (sanitize_cleanup_decomposed _).1 (by decide) (by decide),
   by decide, by decide, by decide,
   (sanitize_cleanup_decomposed _).2.2 (by decide) (by decide) (by decide)⟩

/-- C9 counterexample: cleanup is not idempotent on already-clean text.
The text `"a PRESENT TO USER: b PRESENT TO USER: c"` is itself a cleanup
output (of a draft with three markers), hence already clean; applying the
cleanup once to it yields `"b PRESENT TO USER: c"`, and applying it twice
yields `"c"` — a second application split at the surviving second marker
occurrence, so twice differs from once. -/
theorem sanitize_not_idempotent_cex :
    sanitize_output (("PRESENT TO USER: a PRESENT TO USER: b PRESENT TO USER: c").toList)
      = ("a PRESENT TO USER: b PRESENT TO USER: c").toList ∧
    sanitize_output (sanitize_output (("a PRESENT TO USER: b PRESENT TO USER: c").toList))
      ≠ sanitize_output (("a PRESENT TO USER: b PRESENT TO USER: c").toList) := by
  constructor
  · decide
  · decide

/-- C9 amended: the output-cleanup step is idempotent on already-clean text
provided the clean text contains neither `"**"` nor the sentinel marker:
for every draft `t`, if the cleaned text `sanitize_output t` is free of
`"**"` and of `"PRESENT TO USER:"`, then cleaning it again changes nothing.
(Without the proviso a second application can differ: a clean text can still
contain a further marker occurrence, which a second pass splits away, and
`"#"`/backtick deletion can abut two `"*"`s into a fresh `"**"`.) -/
theorem sanitize_idempotent_on_clean (t : List Char)
    (hstar : containsSubL (("**").toList) (sanitize_output t) = false)
    (hmark : containsSubL markerChars (sanitize_output t) = false) :
    sanitize_output (sanitize_output t) = sanitize_output t := by
  obtain ⟨lines, hclean, hform⟩ := sanitize_output_is_join_clean t
  have hnoart := sanitize_output_no_artifacts t
  by_cases ho : sanitize_output t = []
  · rw [ho]
    simp [sanitize_output]
  · have h3 : containsSubL (("```").toList) (sanitize_output t) = false := by
      cases h : containsSubL (("```").toList) (sanitize_output t)
      · rfl
      · exact absurd (containsSubL_chars _ _ h '\x60' (by decide)) hnoart.2
    have h4 : containsSubL (("#").toList) (sanitize_output t) = false := by
      cases h : containsSubL (("#").toList) (sanitize_output t)
      · rfl
      · exact absurd (containsSubL_chars _ _ h '#' (by decide)) hnoart.1
    have h5 : containsSubL (("`").toList) (sanitize_output t) = false := by
      cases h : containsSubL (("`").toList) (sanitize_output t)
      · rfl
      · exact absurd (containsSubL_chars _ _ h '\x60' (by decide)) hnoart.2
    have hsa : stripArtifacts (sanitize_output t) = sanitize_output t := by
      rw [stripArtifacts]
      rw [listReplace_not_contains _ _ _ h3]
      rw [listReplace_not_contains _ _ _ hstar]
      rw [listReplace_not_contains _ _ _ h4]
      rw [listReplace_not_contains _ _ _ h5]
    rw [sanitize_output_eq_normWS (sanitize_output t) ho, hsa]
    rw [if_neg (by simp [hmark])]
    rw [hform]
    exact normWS_joinNL_clean lines hclean

theorem sanitize_idempotent_on_clean_witness :
    containsSubL (("**").toList)
      (sanitize_output (("PRESENT TO USER:  hello\n world ").toList)) = false ∧
    containsSubL markerChars
      (sanitize_output (("PRESENT TO USER:  hello\n world ").toList)) = false ∧
    sanitize_output (sanitize_output (("PRESENT TO USER:  hello\n world ").toList))
      = sanitize_output (("PRESENT TO USER:  hello\n world ").toList) :=
  ⟨by decide, by decide, sanitize_idempotent_on_clean _ (by decide) (by decide)⟩

/-! ## Pipeline orchestrator (`processing_functions.run_full_pipeline`)

Each stage invocation (one `retry_with_fallback(stage_fn, args..., model)`
call in the source, or one `safe_generate(text)` call in boost mode) is a
single oracle call; the oracle abstracts the stage function together with
its retry/fallback handling, returning the stage's text or the exception
the engine raised. The run state records the oracle calls made (in order),
the progress events emitted, and the growing results map. -/

/-- One stage invocation of the orchestrator, carrying exactly the data the
source passes to the stage function at that call site. -/
inductive Call : Type
  | analysisIn (prompt model : String)
  | generationIn (analysis model : String)
  | vettingIn (generation model : String)
  | finalizeIn (vetting prompt model : String)
  | enhanceIn (finalPrompt model : String)
  | comprehensiveIn (prompt analysis generation vetting finalPrompt enhanced model : String)
  | solveIn (prompt model : String)
  | verifyIn (prompt answer model : String)
  | boostIn (model text : String)
deriving DecidableEq

/-- The pipeline stage a call belongs to. -/
inductive StageName : Type
  | analysis
  | generation
  | vetting
  | finalization
  | enhancement
  | comprehensive
  | solved
  | verified
  | boosted
deriving DecidableEq

/-- Stage of a call. -/
def stageOf : Call → StageName
  | .analysisIn _ _ => .analysis
  | .generationIn _ _ => .generation
  | .vettingIn _ _ => .vetting
  | .finalizeIn _ _ _ => .finalization
  | .enhanceIn _ _ => .enhancement
  | .comprehensiveIn _ _ _ _ _ _ _ => .comprehensive
  | .solveIn _ _ => .solved
  | .verifyIn _ _ _ => .verified
  | .boostIn _ _ => .boosted

/-- The fixed stage order of the standard pipeline. -/
def stageOrder : List StageName :=
  [.analysis, .generation, .vetting, .finalization, .enhancement, .comprehensive]

/-- Observable state of one pipeline run: the oracle calls made so far (in
order), the progress events emitted (phase, message, content), and the
results map (`results` in the source, as an association list in insertion
order). -/
structure RunState : Type where
  calls : List Call
  events : List (String × String × Option String)
  results : List (String × String)
deriving DecidableEq

/-- The run state before any stage has executed. -/
def emptyRunState : RunState := ⟨[], [], []⟩

/-- The run state right after the initial `_emit_progress(cb, "start")`. -/
def startState : RunState :=
  ⟨[], [(("start"), progressMessagesGet ("start"), none)], []⟩

/-- Execute one stage: invoke the oracle on `c`; on success append the
result under `key` and emit the phase-done event (if the source emits one at
this call site); on failure propagate the exception with the state as it
stood (the failed call is recorded in the trace). -/
def doStage {ε : Type} (oracle : Call → Except ε String) (st : RunState) (c : Call)
    (key : String) (donePhase : Option String) : Except (RunState × ε) (RunState × String) :=
  let st1 : RunState := { st with calls := st.calls ++ [c] }
  match oracle c with
  | .error e => .error (st1, e)
  | .ok out =>
      let st2 : RunState := { st1 with
        results := st1.results ++ [(key, out)],
        events := match donePhase with
          | none => st1.events
          | some ph => st1.events ++ [(ph, progressMessagesGet ph, some out)] }
      .ok (st2, out)

/-- The standard six-stage branch of `run_full_pipeline` (the "original
pipeline" at the end of the function). -/
def runStandard {ε : Type} (oracle : Call → Except ε String) (prompt : String)
    (st : RunState) : RunState × Except ε (List (String × String)) :=
  match doStage oracle st (.analysisIn prompt (ollamaModel ("analysis")))
      ("analysis") (some ("analysis_done")) with
  | .error (st, e) => (st, .error e)
  | .ok (st, a) =>
  match doStage oracle st (.generationIn a (ollamaModel ("generation")))
      ("generation") (some ("generation_done")) with
  | .error (st, e) => (st, .error e)
  | .ok (st, g) =>
  match doStage oracle st (.vettingIn g (ollamaModel ("vetting")))
      ("vetting") (some ("vetting_done")) with
  | .error (st, e) => (st, .error e)
  | .ok (st, v) =>
  match doStage oracle st (.finalizeIn v prompt (ollamaModel ("finalization")))
      ("final") (some ("finalize_done")) with
  | .error (st, e) => (st, .error e)
  | .ok (st, f) =>
  match doStage oracle st (.enhanceIn f (ollamaModel ("enhancement")))
      ("enhanced") (some ("enhance_done")) with
  | .error (st, e) => (st, .error e)
  | .ok (st, en) =>
  match doStage oracle st (.comprehensiveIn prompt a g v f en (ollamaModel ("comprehensive")))
      ("comprehensive") (some ("complete")) with
  | .error (st, e) => (st, .error e)
  | .ok (st, _) => (st, .ok st.results)

/-- The `solve` branch of `run_full_pipeline`: one solve call (no progress
event) and one verify call; the verify model is
`OLLAMA_MODELS.get("presenter", OLLAMA_MODELS["comprehensive"])`. -/
def runSolve {ε : Type} (oracle : Call → Except ε String) (prompt : String)
    (st : RunState) : RunState × Except ε (List (String × String)) :=
  match doStage oracle st (.solveIn prompt (ollamaModel ("comprehensive")))
      ("solved") none with
  | .error (st, e) => (st, .error e)
  | .ok (st, solved) =>
  match doStage oracle st
      (.verifyIn prompt solved ((lookupA OLLAMA_MODELS ("presenter")).getD
        (ollamaModel ("comprehensive"))))
      ("comprehensive") (some ("complete")) with
  | .error (st, e) => (st, .error e)
  | .ok (st, _) => (st, .ok st.results)

/-- The fixed model of boost mode (`boost_model = "mistral:latest"`). -/
def boostModel : String := "mistral:latest"

/-- The analysis-stage text boost mode builds from the prompt. -/
def boostAnalysisText (prompt : String) : String :=
  "Analyze this prompt: '" ++ prompt ++
  "'\n\nFocus on:\n1. Core requirements and goals\n2. Key components needed\n3. Specific constraints or parameters\n4. Expected output format\n5. Quality criteria\n\nProvide a clear, focused analysis that will help in improving this exact prompt."

/-- The generation-stage text boost mode builds from the analysis output. -/
def boostGenerationText (analysis : String) : String :=
  "Based on this analysis: '" ++ analysis ++
  "'\n\nGenerate specific improvements that:\n1. Address identified issues\n2. Enhance clarity and specificity\n3. Add necessary structure\n4. Maintain focus on core goals\n5. Consider all quality criteria\n\nImportant: Generate practical, focused improvements that directly enhance the prompt."

/-- The vetting-stage text boost mode builds from the generation output. -/
def boostVettingText (generation : String) : String :=
  "Review these suggested improvements: '" ++ generation ++
  "'\n\nEvaluate how well they enhance the original prompt:\n1. Do they address core requirements?\n2. Are they clear and specific?\n3. Do they maintain focus on the task?\n4. Are they practical and implementable?\n\nFocus on validating improvements that directly enhance the original prompt."

/-- The finalize-stage text boost mode builds from the prompt and the
vetting output. -/
def boostFinalText (prompt vetting : String) : String :=
  "Original Prompt: " ++ prompt ++ "\nValidated Improvements: " ++ vetting ++
  "\n\nCreate an improved version that:\n1. Maintains the original goal\n2. Incorporates validated improvements\n3. Uses clear, specific language\n4. Adds necessary structure\n5. Includes any required constraints\n\nStay focused on the original task."

/-- The enhance-stage text boost mode builds from the finalize output. -/
def boostEnhanceText (finalPrompt : String) : String :=
  "Polish and refine this prompt:\n\n" ++ finalPrompt ++
  "\n\nFocus on:\n1. Making instructions crystal clear\n2. Adding any missing details\n3. Improving structure\n4. Ensuring completeness\n5. Maintaining focus\n\nStay focused on improving THIS prompt."

/-- The comprehensive-review text boost mode builds from the prompt and all
five prior outputs. -/
def boostComprehensiveText (prompt analysis generation vetting finalPrompt enhanced : String) :
    String :=
  "Review all versions and create refined prompt:\nOriginal: " ++ prompt ++
  "\nAnalysis: " ++ analysis ++ "\nGeneration: " ++ generation ++
  "\nVetting: " ++ vetting ++ "\nFinal: " ++ finalPrompt ++
  "\nEnhanced: " ++ enhanced ++
  "\n\nCombine best elements for maximum clarity and effectiveness."

/-- The `boost` branch of `run_full_pipeline`: the six conceptual stages,
each one `safe_generate(text)` call on the fixed boost model. -/
def runBoost {ε : Type} (oracle : Call → Except ε String) (prompt : String)
    (st : RunState) : RunState × Except ε (List (String × String)) :=
  match doStage oracle st (.boostIn boostModel (boostAnalysisText prompt))
      ("analysis") (some ("analysis_done")) with
  | .error (st, e) => (st, .error e)
  | .ok (st, a) =>
  match doStage oracle st (.boostIn boostModel (boostGenerationText a))
      ("generation") (some ("generation_done")) with
  | .error (st, e) => (st, .error e)
  | .ok (st, g) =>
  match doStage oracle st (.boostIn boostModel (boostVettingText g))
      ("vetting") (some ("vetting_done")) with
  | .error (st, e) => (st, .error e)
  | .ok (st, v) =>
  match doStage oracle st (.boostIn boostModel (boostFinalText prompt v))
      ("final") (some ("finalize_done")) with
  | .error (st, e) => (st, .error e)
  | .ok (st, f) =>
  match doStage oracle st (.boostIn boostModel (boostEnhanceText f))
      ("enhanced") (some ("enhance_done")) with
  | .error (st, e) => (st, .error e)
  | .ok (st, en) =>
  match doStage oracle st (.boostIn boostModel (boostComprehensiveText prompt a g v f en))
      ("comprehensive") (some ("complete")) with
  | .error (st, e) => (st, .error e)
  | .ok (st, _) => (st, .ok st.results)

/-- Python `str.lower()` (character-wise; the strings it is applied to in
the source — mode names and solver-cue detection — are ASCII). -/
def pyToLower (s : List Char) : List Char := s.map Char.toLower

/-- The cue phrases of `_should_solve`. -/
def solveCues : List String :=
  ["return only", "output format", "exactly the sample output", "answer key", "final answers"]

/-- `processing_functions._should_solve`: any cue occurs in the lowercased
prompt. -/
def shouldSolve (prompt : String) : Bool :=
  solveCues.any (fun cue => containsSubL cue.toList (pyToLower prompt.toList))

/-- `mode = (mode or DEFAULT_MODE).lower()`, then the auto-to-solve
rewrite (`if mode == "auto" and _should_solve(prompt): mode = "solve"`). -/
def normalizeMode (mode : Option String) (prompt : String) : List Char :=
  let m := pyToLower (match mode with
    | none => DEFAULT_MODE.toList
    | some s => if s = "" then DEFAULT_MODE.toList else s.toList)
  if (m == ("auto").toList) && shouldSolve prompt then ("solve").toList else m

/-- Lift a branch result to the pipeline's exception type: stage errors
propagate as the raw exception the retry engine raised. -/
def wrapRun {ε : Type} (r : RunState × Except ε (List (String × String))) :
    RunState × Except (PyExc ε) (List (String × String)) :=
  (r.1, match r.2 with | .ok v => .ok v | .error e => .error (.raw e))

/-- `processing_functions.run_full_pipeline`: reject empty or
whitespace-only prompts before anything else, emit the start event, then
dispatch on the normalized mode. -/
def run_full_pipeline {ε : Type} (oracle : Call → Except ε String) (prompt : String)
    (mode : Option String) : RunState × Except (PyExc ε) (List (String × String)) :=
  if pyStrip prompt.toList = [] then
    (emptyRunState, .error (.valueError ("Prompt is empty")))
  else
    let m := normalizeMode mode prompt
    if m == ("solve").toList then wrapRun (runSolve oracle prompt startState)
    else if m == ("boost").toList then wrapRun (runBoost oracle prompt startState)
    else wrapRun (runStandard oracle prompt startState)

/-! ### Standard-mode behaviour -/

theorem run_full_pipeline_standard {ε : Type} (oracle : Call → Except ε String)
    (prompt : String) (hp : pyStrip prompt.toList ≠ []) :
    run_full_pipeline oracle prompt (some ("standard"))
      = wrapRun (runStandard oracle prompt startState) := by
  rw [run_full_pipeline, if_neg hp]
  rfl

/-- The analysis output of an all-successful standard run with stage
oracle `g`. -/
def stdAnalysis (g : Call → String) (prompt : String) : String :=
  g (.analysisIn prompt (ollamaModel ("analysis")))

/-- The generation output: consumes the analysis output. -/
def stdGeneration (g : Call → String) (prompt : String) : String :=
  g (.generationIn (stdAnalysis g prompt) (ollamaModel ("generation")))

/-- The vetting output: consumes the generation output. -/
def stdVetting (g : Call → String) (prompt : String) : String :=
  g (.vettingIn (stdGeneration g prompt) (ollamaModel ("vetting")))

/-- The finalization output: consumes the vetting output and the original
prompt. -/
def stdFinal (g : Call → String) (prompt : String) : String :=
  g (.finalizeIn (stdVetting g prompt) prompt (ollamaModel ("finalization")))

/-- The enhancement output: consumes the finalization output. -/
def stdEnhanced (g : Call → String) (prompt : String) : String :=
  g (.enhanceIn (stdFinal g prompt) (ollamaModel ("enhancement")))

/-- The comprehensive output: consumes the original prompt and all five
prior stage outputs. -/
def stdComprehensive (g : Call → String) (prompt : String) : String :=
  g (.comprehensiveIn prompt (stdAnalysis g prompt) (stdGeneration g prompt)
    (stdVetting g prompt) (stdFinal g prompt) (stdEnhanced g prompt)
    (ollamaModel ("comprehensive")))

/-- The results map of an all-successful standard run. -/
def stdResults (g : Call → String) (prompt : String) : List (String × String) :=
  [(("analysis"), stdAnalysis g prompt), (("generation"), stdGeneration g prompt),
   (("vetting"), stdVetting g prompt), (("final"), stdFinal g prompt),
   (("enhanced"), stdEnhanced g prompt), (("comprehensive"), stdComprehensive g prompt)]

/-- C1: in standard mode each stage's output is threaded into the next
stage's input — the recorded call sequence is exactly: analysis on the
original prompt, generation on the analysis output, vetting on the
generation output, finalization on the vetting output plus the prompt,
enhancement on the finalization output, and the comprehensive stage on the
prompt plus all five prior outputs — and the returned map binds each stage
key to that stage's output. -/
theorem pipeline_standard_threading {ε : Type} (g : Call → String) (prompt : String)
    (a gn v f en : String)
    (hp : pyStrip prompt.toList ≠ [])
    (ha : g (.analysisIn prompt (ollamaModel ("analysis"))) = a)
    (hg : g (.generationIn a (ollamaModel ("generation"))) = gn)
    (hv : g (.vettingIn gn (ollamaModel ("vetting"))) = v)
    (hf : g (.finalizeIn v prompt (ollamaModel ("finalization"))) = f)
    (he : g (.enhanceIn f (ollamaModel ("enhancement"))) = en) :
    (run_full_pipeline (ε := ε) (fun c => .ok (g c)) prompt (some ("standard"))).1.calls
      = [.analysisIn prompt (ollamaModel ("analysis")),
         .generationIn a (ollamaModel ("generation")),
         .vettingIn gn (ollamaModel ("vetting")),
         .finalizeIn v prompt (ollamaModel ("finalization")),
         .enhanceIn f (ollamaModel ("enhancement")),
         .comprehensiveIn prompt a gn v f en (ollamaModel ("comprehensive"))] ∧
    (run_full_pipeline (ε := ε) (fun c => .ok (g c)) prompt (some ("standard"))).2
      = .ok [(("analysis"), a), (("generation"), gn), (("vetting"), v), (("final"), f),
             (("enhanced"), en),
             (("comprehensive"),
               g (.comprehensiveIn prompt a gn v f en (ollamaModel ("comprehensive"))))] := by
  subst ha
  subst hg
  subst hv
  subst hf
  subst he
  constructor
  · rw [run_full_pipeline, if_neg hp]
    rfl
  · rw [run_full_pipeline, if_neg hp]
    rfl

/-- Deterministic stage mocks for the C1 witness, returning `"A1"`, `"G1"`,
`"V1"`, `"F1"`, `"E1"`, `"C1"` by stage. -/
def mockStage : Call → String := fun c => match c with
  | .analysisIn _ _ => "A1"
  | .generationIn _ _ => "G1"
  | .vettingIn _ _ => "V1"
  | .finalizeIn _ _ _ => "F1"
  | .enhanceIn _ _ => "E1"
  | .comprehensiveIn _ _ _ _ _ _ _ => "C1"
  | .solveIn _ _ => "S1"
  | .verifyIn _ _ _ => "R1"
  | .boostIn _ _ => "B1"

theorem pipeline_standard_threading_witness :
    pyStrip ("Write a function to reverse a string").toList ≠ [] ∧
    ((run_full_pipeline (ε := Unit) (fun c => .ok (mockStage c))
        ("Write a function to reverse a string") (some ("standard"))).1.calls
      = [.analysisIn ("Write a function to reverse a string") ("llama3.2:latest"),
         .generationIn ("A1") ("olmo2:13b"),
         .vettingIn ("G1") ("deepseek-r1"),
         .finalizeIn ("V1") ("Write a function to reverse a string") ("deepseek-r1:14b"),
         .enhanceIn ("F1") ("phi4:latest"),
         .comprehensiveIn ("Write a function to reverse a string") ("A1") ("G1") ("V1")
           ("F1") ("E1") ("phi4:latest")] ∧
     (run_full_pipeline (ε := Unit) (fun c => .ok (mockStage c))
        ("Write a function to reverse a string") (some ("standard"))).2
      = .ok [(("analysis"), "A1"), (("generation"), "G1"), (("vetting"), "V1"),
             (("final"), "F1"), (("enhanced"), "E1"), (("comprehensive"), "C1")]) :=
  ⟨by decide,
   pipeline_standard_threading mockStage ("Write a function to reverse a string")
     ("A1") ("G1") ("V1") ("F1") ("E1") (by decide) rfl rfl rfl rfl rfl⟩

/-- C4: for every empty or whitespace-only prompt, `run_full_pipeline`
raises `ValueError("Prompt is empty")` before any stage executes, in every
mode: no stage oracle call is made and no progress event is emitted. -/
theorem pipeline_blank_prompt_value_error {ε : Type} (oracle : Call → Except ε String)
    (prompt : String) (mode : Option String) (hp : pyStrip prompt.toList = []) :
    run_full_pipeline oracle prompt mode
      = (emptyRunState, .error (.valueError ("Prompt is empty"))) ∧
    (run_full_pipeline oracle prompt mode).1.calls = [] ∧
    (run_full_pipeline oracle prompt mode).1.events = [] := by
  have h : run_full_pipeline oracle prompt mode
      = (emptyRunState, .error (.valueError ("Prompt is empty"))) := by
    rw [run_full_pipeline, if_pos hp]
  exact ⟨h, by rw [h]; rfl, by rw [h]; rfl⟩

/-- Stage oracle for the C4 witness (never reached). -/
def c4Oracle : Call → Except Unit String := fun _ => .ok ("x")

theorem pipeline_blank_prompt_value_error_witness :
    pyStrip ("  \t\n ").toList = [] ∧
    (run_full_pipeline c4Oracle ("  \t\n ") (some ("boost"))
      = (emptyRunState, .error (.valueError ("Prompt is empty"))) ∧
    (run_full_pipeline c4Oracle ("  \t\n ") (some ("boost"))).1.calls = [] ∧
    (run_full_pipeline c4Oracle ("  \t\n ") (some ("boost"))).1.events = []) :=
  ⟨by decide,
   pipeline_blank_prompt_value_error c4Oracle ("  \t\n ") (some ("boost")) (by decide)⟩

/-- Stage mock for the C5 counterexample: every stage call succeeds, but the
analysis call returns the empty string. -/
def c5CexMock : Call → String := fun c => match c with
  | .analysisIn _ _ => ""
  | _ => "x"

/-- C5 counterexample: the code never checks stage outputs for emptiness.
With a non-empty prompt in standard mode and every stage call succeeding —
the analysis call returning `""` and the rest `"x"` — the run completes and
returns a map with all six keys, but `results["analysis"]` is the empty
string, so "each mapped to a non-empty string" fails. -/
theorem pipeline_six_keys_empty_value_cex :
    (run_full_pipeline (ε := Unit) (fun c => .ok (c5CexMock c)) ("p")
        (some ("standard"))).2
      = .ok [(("analysis"), ""), (("generation"), "x"), (("vetting"), "x"),
             (("final"), "x"), (("enhanced"), "x"), (("comprehensive"), "x")] ∧
    lookupA [(("analysis"), ("" : String)), (("generation"), "x"), (("vetting"), "x"),
             (("final"), "x"), (("enhanced"), "x"), (("comprehensive"), "x")]
        ("analysis") = some ("") := by
  refine ⟨by decide, by decide⟩

/-- C5 amended: for every non-empty prompt in standard mode, when every
stage call succeeds, the returned results map has entries for all six stage
keys — analysis, generation, vetting, final, enhanced, and the assembled
comprehensive output — each bound to that stage's output text; the values
are all non-empty provided each successful stage call returned non-empty
text (the code never checks emptiness, so an empty stage output yields an
empty map value, as the counterexample shows). -/
theorem pipeline_standard_six_keys {ε : Type} (g : Call → String) (prompt : String)
    (hp : pyStrip prompt.toList ≠ []) :
    ∃ m, (run_full_pipeline (ε := ε) (fun c => .ok (g c)) prompt (some ("standard"))).2
        = .ok m ∧
      (∀ k ∈ [("analysis" : String), ("generation"), ("vetting"), ("final"),
              ("enhanced"), ("comprehensive")],
        ∃ v, lookupA m k = some v) ∧
      ((∀ c, g c ≠ "") →
        ∀ k ∈ [("analysis" : String), ("generation"), ("vetting"), ("final"),
               ("enhanced"), ("comprehensive")],
          ∃ v, lookupA m k = some v ∧ v ≠ "") := by
  refine ⟨stdResults g prompt, ?_, ?_, ?_⟩
  · rw [run_full_pipeline, if_neg hp]
    rfl
  · intro k hk
    fin_cases hk
    · exact ⟨stdAnalysis g prompt, rfl⟩
    · exact ⟨stdGeneration g prompt, rfl⟩
    · exact ⟨stdVetting g prompt, rfl⟩
    · exact ⟨stdFinal g prompt, rfl⟩
    · exact ⟨stdEnhanced g prompt, rfl⟩
    · exact ⟨stdComprehensive g prompt, rfl⟩
  · intro hne k hk
    fin_cases hk
    · exact ⟨stdAnalysis g prompt, rfl, hne _⟩
    · exact ⟨stdGeneration g prompt, rfl, hne _⟩
    · exact ⟨stdVetting g prompt, rfl, hne _⟩
    · exact ⟨stdFinal g prompt, rfl, hne _⟩
    · exact ⟨stdEnhanced g prompt, rfl, hne _⟩
    · exact ⟨stdComprehensive g prompt, rfl, hne _⟩

/-- Stage mock for the C5 witness. -/
def c5Mock : Call → String := fun _ => "ok-text"

theorem pipeline_standard_six_keys_witness :
    pyStrip ("p").toList ≠ [] ∧ (∀ c, c5Mock c ≠ "") ∧
    ∃ m, (run_full_pipeline (ε := Unit) (fun c => .ok (c5Mock c)) ("p")
        (some ("standard"))).2 = .ok m ∧
      (∀ k ∈ [("analysis" : String), ("generation"), ("vetting"), ("final"),
              ("enhanced"), ("comprehensive")],
        ∃ v, lookupA m k = some v) ∧
      ((∀ c, c5Mock c ≠ "") →
        ∀ k ∈ [("analysis" : String), ("generation"), ("vetting"), ("final"),
               ("enhanced"), ("comprehensive")],
          ∃ v, lookupA m k = some v ∧ v ≠ "") :=
  ⟨by decide, fun _ => by show ("ok-text" : String) ≠ ""; decide,
   pipeline_standard_six_keys c5Mock ("p") (by decide)⟩

/-- C7: fail-fast. In standard mode, if the run fails, the stages actually
invoked form an initial segment of the fixed stage order ending at the
failing stage, and no stage later in pipeline order is ever invoked. -/
theorem pipeline_fail_fast {ε : Type} (oracle : Call → Except ε String) (prompt : String)
    (hp : pyStrip prompt.toList ≠ [])
    (hfail : exIsOk (run_full_pipeline oracle prompt (some ("standard"))).2 = false) :
    ∃ j, j ≤ 6 ∧
      (run_full_pipeline oracle prompt (some ("standard"))).1.calls.map stageOf
        = stageOrder.take j ∧
      ∀ s ∈ stageOrder.drop j,
        s ∉ (run_full_pipeline oracle prompt (some ("standard"))).1.calls.map stageOf := by
  rw [run_full_pipeline_standard oracle prompt hp] at hfail ⊢
  cases h1 : oracle (.analysisIn prompt (ollamaModel ("analysis"))) with
  | error e1 =>
    have hc : (wrapRun (runStandard oracle prompt startState)).1.calls.map stageOf
        = [StageName.analysis] := by
      simp [runStandard, doStage, h1, wrapRun, startState, stageOf]
    rw [hc]
    exact ⟨1, by omega, by decide, by decide⟩
  | ok a1 =>
  cases h2 : oracle (.generationIn a1 (ollamaModel ("generation"))) with
  | error e2 =>
    have hc : (wrapRun (runStandard oracle prompt startState)).1.calls.map stageOf
        = [StageName.analysis, StageName.generation] := by
      simp [runStandard, doStage, h1, h2, wrapRun, startState, stageOf]
    rw [hc]
    exact ⟨2, by omega, by decide, by decide⟩
  | ok g1 =>
  cases h3 : oracle (.vettingIn g1 (ollamaModel ("vetting"))) with
  | error e3 =>
    have hc : (wrapRun (runStandard oracle prompt startState)).1.calls.map stageOf
        = [StageName.analysis, StageName.generation, StageName.vetting] := by
      simp [runStandard, doStage, h1, h2, h3, wrapRun, startState, stageOf]
    rw [hc]
    exact ⟨3, by omega, by decide, by decide⟩
  | ok v1 =>
  cases h4 : oracle (.finalizeIn v1 prompt (ollamaModel ("finalization"))) with
  | error e4 =>
    have hc : (wrapRun (runStandard oracle prompt startState)).1.calls.map stageOf
        = [StageName.analysis, StageName.generation, StageName.vetting,
           StageName.finalization] := by
      simp [runStandard, doStage, h1, h2, h3, h4, wrapRun, startState, stageOf]
    rw [hc]
    exact ⟨4, by omega, by decide, by decide⟩
  | ok f1 =>
  cases h5 : oracle (.enhanceIn f1 (ollamaModel ("enhancement"))) with
  | error e5 =>
    have hc : (wrapRun (runStandard oracle prompt startState)).1.calls.map stageOf
        = [StageName.analysis, StageName.generation, StageName.vetting,
           StageName.finalization, StageName.enhancement] := by
      simp [runStandard, doStage, h1, h2, h3, h4, h5, wrapRun, startState, stageOf]
    rw [hc]
    exact ⟨5, by omega, by decide, by decide⟩
  | ok en1 =>
  cases h6 : oracle (.comprehensiveIn prompt a1 g1 v1 f1 en1 (ollamaModel ("comprehensive"))) with
  | error e6 =>
    have hc : (wrapRun (runStandard oracle prompt startState)).1.calls.map stageOf
        = [StageName.analysis, StageName.generation, StageName.vetting,
           StageName.finalization, StageName.enhancement, StageName.comprehensive] := by
      simp [runStandard, doStage, h1, h2, h3, h4, h5, h6, wrapRun, startState, stageOf]
    rw [hc]
    exact ⟨6, by omega, by decide, by decide⟩
  | ok c1 =>
    exfalso
    simp [runStandard, doStage, h1, h2, h3, h4, h5, h6, wrapRun, exIsOk] at hfail

/-- Stage oracle for the C7 witness: vetting always fails, everything else
succeeds. -/
def c7Oracle : Call → Except String String := fun c => match c with
  | .vettingIn _ _ => .error ("vet-boom")
  | _ => .ok ("out")

theorem pipeline_fail_fast_witness :
    pyStrip ("p").toList ≠ [] ∧
    exIsOk (run_full_pipeline c7Oracle ("p") (some ("standard"))).2 = false ∧
    ∃ j, j ≤ 6 ∧
      (run_full_pipeline c7Oracle ("p") (some ("standard"))).1.calls.map stageOf
        = stageOrder.take j ∧
      ∀ s ∈ stageOrder.drop j,
        s ∉ (run_full_pipeline c7Oracle ("p") (some ("standard"))).1.calls.map stageOf :=
  ⟨by decide, by decide, pipeline_fail_fast c7Oracle ("p") (by decide) (by decide)⟩

/-- The phase-done event name the orchestrator emits for each results key. -/
def donePhaseOf (k : String) : String :=
  if k = "analysis" then "analysis_done"
  else if k = "generation" then "generation_done"
  else if k = "vetting" then "vetting_done"
  else if k = "final" then "finalize_done"
  else if k = "enhanced" then "enhance_done"
  else if k = "comprehensive" then "complete"
  else ""

/-- Oracle for the C8 counterexample and witness: analysis succeeds with
`"A1"`, generation fails terminally. -/
def c8Oracle : Call → Except String String := fun c => match c with
  | .analysisIn _ _ => .ok ("A1")
  | .generationIn _ _ => .error ("gen-boom")
  | _ => .ok ("x")

/-- C8 counterexample: when the generation stage fails, the analysis stage
had completed — its output is in the internal results map and was emitted as
a progress event — yet `run_full_pipeline` raises (returns the stage error),
so the caller receives no results map at all: the claim that the
orchestrator's results map is made available to the caller on a failed run
is false. -/
theorem pipeline_partial_results_cex :
    (run_full_pipeline c8Oracle ("p") (some ("standard"))).2
      = .error (.raw ("gen-boom")) ∧
    exIsOk (run_full_pipeline c8Oracle ("p") (some ("standard"))).2 = false ∧
    lookupA (run_full_pipeline c8Oracle ("p") (some ("standard"))).1.results ("analysis")
      = some ("A1") ∧
    ((("analysis_done") : String), progressMessagesGet ("analysis_done"), some (("A1") : String))
      ∈ (run_full_pipeline c8Oracle ("p") (some ("standard"))).1.events := by
  refine ⟨by decide, by decide, by decide, by decide⟩

/-- C8 amended: on a failed standard-mode run the results map is not
returned to the caller (the function raises instead); the outputs of the
stages that completed before the failure reach the caller only through the
progress callback — every entry of the internal results map was emitted as
the corresponding phase-done event before the run ended. -/
theorem pipeline_partials_only_via_events {ε : Type} (oracle : Call → Except ε String)
    (prompt : String) (hp : pyStrip prompt.toList ≠ []) :
    ∀ p ∈ (run_full_pipeline oracle prompt (some ("standard"))).1.results,
      (donePhaseOf p.1, progressMessagesGet (donePhaseOf p.1), some p.2)
        ∈ (run_full_pipeline oracle prompt (some ("standard"))).1.events := by
  rw [run_full_pipeline_standard oracle prompt hp]
  cases h1 : oracle (.analysisIn prompt (ollamaModel ("analysis"))) with
  | error e1 =>
    intro p hp2
    simp [runStandard, doStage, h1, wrapRun, startState] at hp2
  | ok a1 =>
  cases h2 : oracle (.generationIn a1 (ollamaModel ("generation"))) with
  | error e2 =>
    intro p hp2
    simp only [runStandard, doStage, h1, h2, wrapRun, startState] at hp2 ⊢
    simp at hp2
    subst hp2
    simp [donePhaseOf]
  | ok g1 =>
  cases h3 : oracle (.vettingIn g1 (ollamaModel ("vetting"))) with
  | error e3 =>
    intro p hp2
    simp only [runStandard, doStage, h1, h2, h3, wrapRun, startState] at hp2 ⊢
    simp at hp2
    rcases hp2 with hp2 | hp2 <;> subst hp2 <;> simp [donePhaseOf]
  | ok v1 =>
  cases h4 : oracle (.finalizeIn v1 prompt (ollamaModel ("finalization"))) with
  | error e4 =>
    intro p hp2
    simp only [runStandard, doStage, h1, h2, h3, h4, wrapRun, startState] at hp2 ⊢
    simp at hp2
    rcases hp2 with hp2 | hp2 | hp2 <;> subst hp2 <;> simp [donePhaseOf]
  | ok f1 =>
  cases h5 : oracle (.enhanceIn f1 (ollamaModel ("enhancement"))) with
  | error e5 =>
    intro p hp2
    simp only [runStandard, doStage, h1, h2, h3, h4, h5, wrapRun, startState] at hp2 ⊢
    simp at hp2
    rcases hp2 with hp2 | hp2 | hp2 | hp2 <;> subst hp2 <;> simp [donePhaseOf]
  | ok en1 =>
  cases h6 : oracle (.comprehensiveIn prompt a1 g1 v1 f1 en1 (ollamaModel ("comprehensive"))) with
  | error e6 =>
    intro p hp2
    simp only [runStandard, doStage, h1, h2, h3, h4, h5, h6, wrapRun, startState] at hp2 ⊢
    simp at hp2
    rcases hp2 with hp2 | hp2 | hp2 | hp2 | hp2 <;> subst hp2 <;> simp [donePhaseOf]
  | ok c1 =>
    intro p hp2
    simp only [runStandard, doStage, h1, h2, h3, h4, h5, h6, wrapRun, startState] at hp2 ⊢
    simp at hp2
    rcases hp2 with hp2 | hp2 | hp2 | hp2 | hp2 | hp2 <;> subst hp2 <;> simp [donePhaseOf]

theorem pipeline_partials_only_via_events_witness :
    pyStrip ("p").toList ≠ [] ∧
    ∀ p ∈ (run_full_pipeline c8Oracle ("p") (some ("standard"))).1.results,
      (donePhaseOf p.1, progressMessagesGet (donePhaseOf p.1), some p.2)
        ∈ (run_full_pipeline c8Oracle ("p") (some ("standard"))).1.events :=
  ⟨by decide, pipeline_partials_only_via_events c8Oracle ("p") (by decide)⟩

end LogicFilter
